import Mathlib

/-!
Shallow embedding of the vaccination-schedule core of `src/app.py`
(functions `calculate_schedule`, the status display logic, the
registration / lookup / toggle operations over `st.session_state`),
together with proofs about it.

Dates are modelled as proleptic-Gregorian triples `(year, month, day)`
with the arithmetic the Python code uses: `dateutil.relativedelta`
month addition (day-of-month clamped to the target month's length),
`timedelta(days=1)` subtraction / addition, lexicographic comparison,
and `date.toordinal`-style subtraction for `(a - b).days`.
-/

structure PyDate where
  year : Nat
  month : Nat
  day : Nat
deriving DecidableEq

/-- Leap-year test, as in the Gregorian calendar used by `datetime.date`. -/
def isLeap (y : Nat) : Bool :=
  y % 4 == 0 && (y % 100 != 0 || y % 400 == 0)

/-- Number of days in month `m` of year `y`. -/
def daysInMonth (y m : Nat) : Nat :=
  if m = 2 then (if isLeap y then 29 else 28)
  else if m = 4 ∨ m = 6 ∨ m = 9 ∨ m = 11 then 30
  else 31

/-- Addition `d + relativedelta(months=n)`: add `n` calendar months, clamping the
day-of-month to the length of the target month. -/
def addMonths (d : PyDate) (n : Nat) : PyDate :=
  let tm := d.year * 12 + (d.month - 1) + n
  { year := tm / 12
    month := tm % 12 + 1
    day := min d.day (daysInMonth (tm / 12) (tm % 12 + 1)) }

/-- Subtraction `d - timedelta(days=1)` on valid dates. -/
def predDay (d : PyDate) : PyDate :=
  if 1 < d.day then { d with day := d.day - 1 }
  else if 1 < d.month then
    { year := d.year, month := d.month - 1, day := daysInMonth d.year (d.month - 1) }
  else { year := d.year - 1, month := 12, day := 31 }

/-- Addition `d + timedelta(days=1)` on valid dates. -/
def succDay (d : PyDate) : PyDate :=
  if d.day < daysInMonth d.year d.month then { d with day := d.day + 1 }
  else if d.month < 12 then { year := d.year, month := d.month + 1, day := 1 }
  else { year := d.year + 1, month := 1, day := 1 }

/-- Python `date` comparison `a <= b`: lexicographic on (year, month, day). -/
def dateLe (a b : PyDate) : Prop :=
  a.year < b.year ∨ (a.year = b.year ∧
    (a.month < b.month ∨ (a.month = b.month ∧ a.day ≤ b.day)))

/-- Python `date` comparison `a < b`: lexicographic on (year, month, day). -/
def dateLt (a b : PyDate) : Prop :=
  a.year < b.year ∨ (a.year = b.year ∧
    (a.month < b.month ∨ (a.month = b.month ∧ a.day < b.day)))

instance (a b : PyDate) : Decidable (dateLe a b) := by
  unfold dateLe; exact inferInstance

instance (a b : PyDate) : Decidable (dateLt a b) := by
  unfold dateLt; exact inferInstance

/-- A well-formed calendar date (what `datetime.date` can hold, with
year at least 1). -/
def validDate (d : PyDate) : Prop :=
  1 ≤ d.year ∧ 1 ≤ d.month ∧ d.month ≤ 12 ∧ 1 ≤ d.day ∧ d.day ≤ daysInMonth d.year d.month

instance (d : PyDate) : Decidable (validDate d) := by
  unfold validDate; exact inferInstance

/-- Days in all years before year `y` (Python `date.toordinal` counts from
0001-01-01 as ordinal 1). -/
def daysBeforeYear (y : Nat) : Nat :=
  365 * (y - 1) + (y - 1) / 4 - (y - 1) / 100 + (y - 1) / 400

/-- Days in the months of year `y` strictly before month `m`. -/
def daysBeforeMonth (y m : Nat) : Nat :=
  ((List.range (m - 1)).map fun k => daysInMonth y (k + 1)).sum

/-- Python `date.toordinal`: day number of `d` counting 0001-01-01 as 1. -/
def toOrdinal (d : PyDate) : Nat :=
  daysBeforeYear d.year + daysBeforeMonth d.year d.month + d.day

/-- Difference `(a - b).days` for Python dates. -/
def dateSub (a b : PyDate) : Int :=
  (toOrdinal a : Int) - (toOrdinal b : Int)

/-! ## Data model of the schedule engine -/

/-- The `status` field of a schedule item: the source stores the strings
`'接種済み'` (administered) and `'未接種'` (pending). -/
inductive Status where
  | administered
  | pending
deriving DecidableEq

/-- One entry of the schedule list built by `calculate_schedule`
(a dose obligation).  `shot_date` models the optional `'shot_date'` key
of the Python dict (absent key = `none`). -/
structure ScheduleItem where
  vaccine_name : String
  recommended_start : PyDate
  recommended_end : PyDate
  status : Status
  shot_date : Option PyDate := none
deriving DecidableEq

/-- One entry of the `VACCINES` master table: name, dose count, and the
`periods` list of `(start_months, interval_months)` pairs. -/
structure Vaccine where
  name : String
  count : Nat
  periods : List (Nat × Nat)
deriving DecidableEq

/-- The `VACCINES` master data from the source. -/
def VACCINES : List Vaccine :=
  [ { name := "B型肝炎", count := 3, periods := [(2, 0), (3, 0), (7, 0)] },
    { name := "ロタウイルス", count := 2, periods := [(2, 0), (3, 0)] },
    { name := "ヒブ", count := 4, periods := [(2, 0), (3, 0), (4, 0), (12, 0)] },
    { name := "小児用肺炎球菌", count := 4, periods := [(2, 0), (3, 0), (4, 0), (12, 0)] },
    { name := "四種混合(DPT-IPV)", count := 4, periods := [(3, 0), (4, 0), (5, 0), (18, 0)] },
    { name := "BCG", count := 1, periods := [(5, 0)] },
    { name := "MR(麻しん風しん混合)", count := 2, periods := [(12, 0), (60, 0)] },
    { name := "水痘(みずぼうそう)", count := 2, periods := [(12, 0), (15, 3)] },
    { name := "日本脳炎", count := 4, periods := [(36, 0), (37, 1), (49, 12), (108, 0)] } ]

/-- Builds the schedule dict appended for dose `i` (0-based) with
recommended start `rs`, as in the loop body of `calculate_schedule`. -/
def mkItem (v : Vaccine) (i : Nat) (rs : PyDate) : ScheduleItem :=
  { vaccine_name := v.name ++ " (" ++ toString (i + 1) ++ "回目)"
    recommended_start := rs
    recommended_end := predDay (addMonths rs 1)
    status := Status.pending
    shot_date := none }

/-- One iteration of the inner dose loop of `calculate_schedule`:
reads `vaccine['periods'][i]` (failing, like the Python `IndexError`,
when `i` is out of range), and computes the recommended start from
`last_shot_date` (the interval branch, with its fallback re-deriving the
base from `periods[i-1][0]`) or from `birth_date + start_months`. -/
def doseStep (birth : PyDate) (v : Vaccine) (last : Option PyDate) (i : Nat) :
    Option ScheduleItem :=
  match v.periods.get? i with
  | none => none
  | some (start_months, interval_months) =>
    let rs? : Option PyDate :=
      if 0 < i ∧ 0 < interval_months then
        match last with
        | some d => some (addMonths d interval_months)
        | none =>
          (v.periods.get? (i - 1)).map fun p =>
            addMonths (addMonths birth p.1) interval_months
      else
        some (addMonths birth start_months)
    rs?.map (mkItem v i)

/-- The inner `for i in range(vaccine['count'])` loop, carrying
`last_shot_date` (set to the emitted item's recommended start after each
iteration). -/
def vaccineLoop (birth : PyDate) (v : Vaccine) :
    Option PyDate → List Nat → Option (List ScheduleItem)
  | _, [] => some []
  | last, i :: rest =>
    match doseStep birth v last i with
    | none => none
    | some item =>
      match vaccineLoop birth v (some item.recommended_start) rest with
      | none => none
      | some items => some (item :: items)

/-- The per-vaccine part of `calculate_schedule`: doses `0 .. count-1`
with `last_shot_date` initially `None`. -/
def scheduleVaccine (birth : PyDate) (v : Vaccine) : Option (List ScheduleItem) :=
  vaccineLoop birth v none (List.range v.count)

/-- The outer `for vaccine in VACCINES` loop, appending each vaccine's
items to one schedule list. -/
def scheduleAll (birth : PyDate) : List Vaccine → Option (List ScheduleItem)
  | [] => some []
  | v :: vs =>
    match scheduleVaccine birth v with
    | none => none
    | some s =>
      match scheduleAll birth vs with
      | none => none
      | some rest => some (s ++ rest)

/-- Sort key of the final `schedule.sort(key=lambda x: x['recommended_start'])`. -/
def leStart (a b : ScheduleItem) : Prop :=
  dateLe a.recommended_start b.recommended_start

instance : DecidableRel leStart := fun a b => by
  unfold leStart; exact inferInstance

/-- Function `calculate_schedule(birth_date)` of the source, with the global
`VACCINES` table made an explicit argument; the final stable
`list.sort` is modelled by `List.insertionSort` (a stable sort) on the
same key. -/
def calculate_schedule (vaccines : List Vaccine) (birth_date : PyDate) :
    Option (List ScheduleItem) :=
  (scheduleAll birth_date vaccines).map (List.insertionSort leStart)

/-! ## Status display, dashboard and mutation operations of `main` -/

/-- The four display states rendered in the schedule view. -/
inductive DisplayStatus where
  | administered
  | due
  | overdue
  | upcoming
deriving DecidableEq

/-- The status derivation of the schedule view (src/app.py lines 230-243):
`is_due = start <= today <= end`, `is_past = today > end and pending`,
rendered with precedence administered / due / overdue / upcoming. -/
def evaluate (item : ScheduleItem) (today : PyDate) : DisplayStatus :=
  let is_due := dateLe item.recommended_start today ∧ dateLe today item.recommended_end
  let is_past := dateLt item.recommended_end today ∧ item.status = Status.pending
  if item.status = Status.administered then DisplayStatus.administered
  else if is_due then DisplayStatus.due
  else if is_past then DisplayStatus.overdue
  else DisplayStatus.upcoming

/-- Dashboard lookup of the next dose:
`next((item for item in schedule if item['status'] == '未接種'), None)`. -/
def next_pending (schedule : List ScheduleItem) : Option ScheduleItem :=
  schedule.find? fun item => decide (item.status = Status.pending)

/-- Dashboard metric `(next_vaccine['recommended_start'] - date.today()).days`. -/
def days_left (item : ScheduleItem) (today : PyDate) : Int :=
  dateSub item.recommended_start today

/-- One child record of `st.session_state['children']`. -/
structure Child where
  name : String
  birth_date : PyDate
  schedule : List ScheduleItem
deriving DecidableEq

/-- The registration form handler (src/app.py lines 140-146): with the
submit button pressed, a non-empty name appends a new child built from
`calculate_schedule(birth_date)`; an empty name only warns (`none`). -/
def register (children : List Child) (name : String) (birth : PyDate) :
    Option (List Child) :=
  if name = "" then none
  else
    (calculate_schedule VACCINES birth).map fun s =>
      children ++ [{ name := name, birth_date := birth, schedule := s }]

/-- Child lookup by name, as used by the dashboard and the schedule view:
`next((c for c in children if c['name'] == name), None)`. -/
def findChild (children : List Child) (name : String) : Option Child :=
  children.find? fun c => decide (c.name = name)

/-- In-place mutation of the child returned by `findChild` (the source
mutates the dict held by the session list): replace the first child with
the given name. -/
def updateChild (name : String) (f : Child → Child) : List Child → List Child
  | [] => []
  | c :: cs => if c.name = name then f c :: cs else c :: updateChild name f cs

/-- The checked branch of the administration checkbox (src/app.py lines
216-223): status becomes administered and `shot_date` becomes the date
chosen in the date widget (`chosen = some d`), whose default value when
the user picks nothing (`chosen = none`) is
`item.get('shot_date', item['recommended_start'])`. -/
def setAdministered (item : ScheduleItem) (chosen : Option PyDate) : ScheduleItem :=
  { item with
    status := Status.administered
    shot_date := some (chosen.getD (item.shot_date.getD item.recommended_start)) }

/-- The unchecked branch (src/app.py lines 224-227): status becomes
pending and the `shot_date` key is deleted. -/
def setPending (item : ScheduleItem) : ScheduleItem :=
  { item with status := Status.pending, shot_date := none }

/-! ## Instrumented variant tracking the interval-branch fallback -/

/-- Instrumented `doseStep` with a flag that is `true` exactly when the
fallback of the interval branch (base date re-derived from
`periods[i-1][0]` because `last_shot_date` is `None`) is taken. -/
def doseStepF (birth : PyDate) (v : Vaccine) (last : Option PyDate) (i : Nat) :
    Option (ScheduleItem × Bool) :=
  match v.periods.get? i with
  | none => none
  | some (start_months, interval_months) =>
    if 0 < i ∧ 0 < interval_months then
      match last with
      | some d => some (mkItem v i (addMonths d interval_months), false)
      | none =>
        (v.periods.get? (i - 1)).map fun p =>
          (mkItem v i (addMonths (addMonths birth p.1) interval_months), true)
    else
      some (mkItem v i (addMonths birth start_months), false)

/-- Inner dose loop carrying the fallback flag (disjunction over steps). -/
def vaccineLoopF (birth : PyDate) (v : Vaccine) :
    Option PyDate → List Nat → Option (List ScheduleItem × Bool)
  | _, [] => some ([], false)
  | last, i :: rest =>
    match doseStepF birth v last i with
    | none => none
    | some (item, f1) =>
      match vaccineLoopF birth v (some item.recommended_start) rest with
      | none => none
      | some (items, f2) => some (item :: items, f1 || f2)

/-- Per-vaccine schedule with the fallback flag. -/
def scheduleVaccineF (birth : PyDate) (v : Vaccine) : Option (List ScheduleItem × Bool) :=
  vaccineLoopF birth v none (List.range v.count)

/-- Whole-table schedule with the fallback flag. -/
def scheduleAllF (birth : PyDate) : List Vaccine → Option (List ScheduleItem × Bool)
  | [] => some ([], false)
  | v :: vs =>
    match scheduleVaccineF birth v with
    | none => none
    | some (s, f1) =>
      match scheduleAllF birth vs with
      | none => none
      | some (rest, f2) => some (s ++ rest, f1 || f2)

/-- Variant of `calculate_schedule` carrying the fallback flag. -/
def calculate_scheduleF (vaccines : List Vaccine) (birth_date : PyDate) :
    Option (List ScheduleItem × Bool) :=
  (scheduleAllF birth_date vaccines).map fun r => (List.insertionSort leStart r.1, r.2)

instance : IsTotal ScheduleItem leStart :=
  ⟨fun a b => by unfold leStart dateLe; omega⟩

instance : IsTrans ScheduleItem leStart :=
  ⟨fun a b c h1 h2 => by unfold leStart dateLe at *; omega⟩

/-! ## Concrete data used by the witness theorems -/

/-- Dose 1 of the two-dose test vaccine `V` for birth date 2023-01-15. -/
def wChain0 : ScheduleItem :=
  { vaccine_name := "V (1回目)", recommended_start := ⟨2023, 2, 15⟩,
    recommended_end := ⟨2023, 3, 14⟩, status := Status.pending, shot_date := none }

/-- Dose 2 of the two-dose test vaccine `V` (chained by interval 3). -/
def wChain1 : ScheduleItem :=
  { vaccine_name := "V (2回目)", recommended_start := ⟨2023, 5, 15⟩,
    recommended_end := ⟨2023, 6, 14⟩, status := Status.pending, shot_date := none }

/-- The single obligation of the one-dose offset-5 test vaccine `X`. -/
def wWindow : ScheduleItem :=
  { vaccine_name := "X (1回目)", recommended_start := ⟨2023, 6, 15⟩,
    recommended_end := ⟨2023, 7, 14⟩, status := Status.pending, shot_date := none }

/-- A pending obligation with window 2023-06-15 .. 2023-07-14. -/
def wEval : ScheduleItem :=
  { vaccine_name := "X (1回目)", recommended_start := ⟨2023, 6, 15⟩,
    recommended_end := ⟨2023, 7, 14⟩, status := Status.pending, shot_date := none }

/-- A pending obligation used by the toggle witness. -/
def wToggle : ScheduleItem :=
  { vaccine_name := "X (1回目)", recommended_start := ⟨2023, 6, 15⟩,
    recommended_end := ⟨2023, 7, 14⟩, status := Status.pending, shot_date := none }

/-- First of two obligations sharing a recommended start (emitted by vaccine `P`). -/
def wSortP : ScheduleItem :=
  { vaccine_name := "P (1回目)", recommended_start := ⟨2023, 3, 15⟩,
    recommended_end := ⟨2023, 4, 14⟩, status := Status.pending, shot_date := none }

/-- Second of two obligations sharing a recommended start (emitted by vaccine `Q`). -/
def wSortQ : ScheduleItem :=
  { vaccine_name := "Q (1回目)", recommended_start := ⟨2023, 3, 15⟩,
    recommended_end := ⟨2023, 4, 14⟩, status := Status.pending, shot_date := none }

/-- An administered obligation preceding `wPend` in a schedule list. -/
def wAdm : ScheduleItem :=
  { vaccine_name := "P (1回目)", recommended_start := ⟨2023, 3, 15⟩,
    recommended_end := ⟨2023, 4, 14⟩, status := Status.administered,
    shot_date := some ⟨2023, 3, 15⟩ }

/-- A pending obligation following `wAdm` in a schedule list. -/
def wPend : ScheduleItem :=
  { vaccine_name := "Q (1回目)", recommended_start := ⟨2023, 3, 15⟩,
    recommended_end := ⟨2023, 4, 14⟩, status := Status.pending, shot_date := none }

/-- A registered child named B. -/
def cB : Child := { name := "B", birth_date := ⟨2022, 1, 1⟩, schedule := [] }

/-- The first registered child named A. -/
def cA1 : Child := { name := "A", birth_date := ⟨2023, 1, 15⟩, schedule := [] }

/-- A later duplicate child also named A. -/
def cA2 : Child := { name := "A", birth_date := ⟨2024, 2, 2⟩, schedule := [] }

/-! ## Supporting lemmas -/

lemma dateLe_refl (a : PyDate) : dateLe a a := by unfold dateLe; omega

lemma dateLe_trans {a b c : PyDate} (h1 : dateLe a b) (h2 : dateLe b c) : dateLe a c := by
  unfold dateLe at *; omega

lemma dateLe_total (a b : PyDate) : dateLe a b ∨ dateLe b a := by unfold dateLe; omega

lemma dateLt_not_le {a b : PyDate} (h : dateLt a b) : ¬ dateLe b a := by
  unfold dateLt dateLe at *; omega

lemma not_le_lt {a b : PyDate} (h : ¬ dateLe a b) : dateLt b a := by
  unfold dateLt dateLe at *; omega

lemma dateLt_le {a b : PyDate} (h : dateLt a b) : dateLe a b := by
  unfold dateLt dateLe at *; omega

lemma dateLe_lt_trans {a b c : PyDate} (h1 : dateLe a b) (h2 : dateLt b c) : dateLt a c := by
  unfold dateLt dateLe at *; omega

lemma dateLt_trans {a b c : PyDate} (h1 : dateLt a b) (h2 : dateLt b c) : dateLt a c := by
  unfold dateLt at *; omega

lemma dateLt_ne {a b : PyDate} (h : dateLt a b) : a ≠ b := by
  intro he; subst he; unfold dateLt at h; omega

lemma dateLt_succDay (d : PyDate) : dateLt d (succDay d) := by
  unfold succDay dateLt; split_ifs <;> simp


lemma daysInMonth_bounds (y m : Nat) : 28 ≤ daysInMonth y m ∧ daysInMonth y m ≤ 31 := by
  unfold daysInMonth; split_ifs <;> omega

lemma addMonths_valid {d : PyDate} (h : validDate d) (n : Nat) : validDate (addMonths d n) := by
  obtain ⟨hy, hm1, hm2, hd1, hd2⟩ := h
  unfold addMonths validDate
  have hb := daysInMonth_bounds ((d.year * 12 + (d.month - 1) + n) / 12)
    ((d.year * 12 + (d.month - 1) + n) % 12 + 1)
  simp only
  omega

lemma start_lt_end {d : PyDate} (h : validDate d) : dateLt d (predDay (addMonths d 1)) := by
  obtain ⟨y, m, day⟩ := d
  obtain ⟨hy, hm1, hm2, hd1, hd2⟩ := h
  simp only [validDate] at hd2
  unfold addMonths predDay dateLt
  have hb1 := daysInMonth_bounds ((y * 12 + (m - 1) + 1) / 12) ((y * 12 + (m - 1) + 1) % 12 + 1)
  have hb2 := daysInMonth_bounds ((y * 12 + (m - 1) + 1) / 12) ((y * 12 + (m - 1) + 1) % 12 + 1 - 1)
  simp only at *
  split_ifs <;> simp_all <;> omega

/-- Claim C2: the status derivation applies its branches with precedence
Administered, then Due (window inclusive at both ends), then Overdue,
then Upcoming; for a pending obligation whose window is non-degenerate
(`recommendedStart ≤ recommendedEnd`, an invariant of every obligation
the program builds), evaluating at `recommendedStart` and at
`recommendedEnd` yields Due, and at `recommendedEnd + 1 day` yields
Overdue. -/
theorem evaluate_cases (o : ScheduleItem) (t : PyDate) :
    (o.status = Status.administered → evaluate o t = DisplayStatus.administered) ∧
    (o.status = Status.pending → dateLe o.recommended_start t → dateLe t o.recommended_end →
      evaluate o t = DisplayStatus.due) ∧
    (o.status = Status.pending → dateLt o.recommended_end t →
      evaluate o t = DisplayStatus.overdue) ∧
    (o.status = Status.pending → dateLt t o.recommended_start →
      dateLe o.recommended_start o.recommended_end →
      evaluate o t = DisplayStatus.upcoming) ∧
    (o.status = Status.pending → dateLe o.recommended_start o.recommended_end →
      evaluate o o.recommended_start = DisplayStatus.due ∧
      evaluate o o.recommended_end = DisplayStatus.due ∧
      evaluate o (succDay o.recommended_end) = DisplayStatus.overdue) := by
  refine ⟨?_, ?_, ?_, ?_, ?_⟩
  · intro h; simp [evaluate, h]
  · intro hp h1 h2
    unfold evaluate
    dsimp only
    split_ifs with ha hd hpast <;> simp_all
  · intro hp hlt
    unfold evaluate
    dsimp only
    split_ifs with ha hd hpast
    · simp_all
    · exact absurd hd.2 (dateLt_not_le hlt)
    · rfl
    · exact absurd ⟨hlt, hp⟩ hpast
  · intro hp hlt hle
    unfold evaluate
    dsimp only
    split_ifs with ha hd hpast
    · simp_all
    · exact absurd hd.1 (dateLt_not_le hlt)
    · exact absurd hle (dateLt_not_le (dateLt_trans hpast.1 hlt))
    · rfl
  · intro hp hle
    refine ⟨?_, ?_, ?_⟩
    · unfold evaluate
      dsimp only
      split_ifs with ha hd hpast <;> simp_all [dateLe_refl]
    · unfold evaluate
      dsimp only
      split_ifs with ha hd hpast <;> simp_all [dateLe_refl]
    · unfold evaluate
      dsimp only
      split_ifs with ha hd hpast
      · simp_all
      · exact absurd hd.2 (dateLt_not_le (dateLt_succDay _))
      · rfl
      · exact absurd ⟨dateLt_succDay _, hp⟩ hpast

/-- Claim C6: marking an obligation administered records the supplied
date, or defaults to the obligation's `recommended_start` when none is
supplied (given the pending-state invariant that no `shot_date` is
present); marking it pending again removes `shot_date`; and neither
direction changes `recommended_start` or `recommended_end`. -/
theorem toggle_frame (item : ScheduleItem) (d : PyDate) (c : Option PyDate) :
    (setAdministered item (some d)).shot_date = some d ∧
    (item.shot_date = none →
      (setAdministered item none).shot_date = some item.recommended_start) ∧
    (setPending item).shot_date = none ∧
    (setAdministered item c).status = Status.administered ∧
    (setPending item).status = Status.pending ∧
    (setAdministered item c).recommended_start = item.recommended_start ∧
    (setAdministered item c).recommended_end = item.recommended_end ∧
    (setPending item).recommended_start = item.recommended_start ∧
    (setPending item).recommended_end = item.recommended_end := by
  refine ⟨rfl, ?_, rfl, rfl, rfl, rfl, rfl, rfl, rfl⟩
  intro h; simp [setAdministered, h]

/-- Claim C10: child lookup by name returns the first matching entry in
registration order, and mutation through a name rewrites only that first
matching entry, so a later duplicate is never read or mutated through
the shared name. -/
theorem find_first_match (l₁ l₂ : List Child) (c : Child) (nm : String)
    (f : Child → Child) (hc : c.name = nm) (hl : ∀ x ∈ l₁, x.name ≠ nm) :
    findChild (l₁ ++ c :: l₂) nm = some c ∧
    updateChild nm f (l₁ ++ c :: l₂) = l₁ ++ f c :: l₂ := by
  induction l₁ with
  | nil =>
    constructor
    · simp [findChild, List.find?, hc]
    · simp [updateChild, hc]
  | cons x xs ih =>
    have hx : x.name ≠ nm := hl x (by simp)
    have ih2 := ih fun y hy => hl y (by simp [hy])
    constructor
    · simpa [findChild, List.find?, hx] using ih2.1
    · simp [updateChild, hx, ih2.2]

/-- Claim C5, counterexample: registering the name A in a registry that
already holds a child named A succeeds (the source performs no
duplicate check), refuting the claimed duplicate-name failure. -/
theorem register_duplicate_accepted :
    ((register [] "A" ⟨2023, 1, 15⟩).getD []).map Child.name = ["A"] ∧
    (register ((register [] "A" ⟨2023, 1, 15⟩).getD []) "A" ⟨2023, 1, 15⟩).isSome = true := by
  constructor
  · rfl
  · rfl

/-- Claim C5, amended: registration fails exactly when the name is the
empty string; with any non-empty name (also an already-registered one)
it appends a new child whose schedule is built by `calculate_schedule`. -/
theorem register_spec (children : List Child) (nm : String) (birth : PyDate) :
    (nm = "" → register children nm birth = none) ∧
    (nm ≠ "" → ∀ s, calculate_schedule VACCINES birth = some s →
      register children nm birth =
        some (children ++ [{ name := nm, birth_date := birth, schedule := s }])) := by
  constructor
  · intro h; simp [register, h]
  · intro h s hs; simp [register, h, hs]

lemma doseStep_isSome (birth : PyDate) (v : Vaccine) (last : Option PyDate) (i : Nat) :
    (doseStep birth v last i).isSome = true ↔ i < v.periods.length := by
  unfold doseStep
  cases hg : v.periods.get? i with
  | none =>
    have := List.get?_eq_none.mp hg
    simp; omega
  | some p =>
    obtain ⟨sm, im⟩ := p
    have hi : i < v.periods.length := by
      by_contra hc
      rw [List.get?_eq_none.mpr (by omega)] at hg
      exact Option.noConfusion hg
    dsimp only
    split_ifs with h
    · cases last with
      | some d => simpa using hi
      | none =>
        cases hg2 : v.periods.get? (i - 1) with
        | none =>
          have := List.get?_eq_none.mp hg2
          omega
        | some q => simpa using hi
    · simpa using hi

lemma vaccineLoop_isSome (birth : PyDate) (v : Vaccine) :
    ∀ (idxs : List Nat) (last : Option PyDate),
      (vaccineLoop birth v last idxs).isSome = true ↔ ∀ i ∈ idxs, i < v.periods.length := by
  intro idxs
  induction idxs with
  | nil => intro last; simp [vaccineLoop]
  | cons i rest ih =>
    intro last
    unfold vaccineLoop
    cases hd : doseStep birth v last i with
    | none =>
      have : ¬ i < v.periods.length := by
        rw [← doseStep_isSome birth v last i, hd]; simp
      simp [this]
    | some item =>
      have hi : i < v.periods.length := by
        rw [← doseStep_isSome birth v last i, hd]; rfl
      cases hr : vaccineLoop birth v (some item.recommended_start) rest with
      | none =>
        have : ¬ ∀ j ∈ rest, j < v.periods.length := by
          rw [← ih (some item.recommended_start), hr]; simp
        dsimp only; rw [hr]; simp [hi, this]
      | some items =>
        have : ∀ j ∈ rest, j < v.periods.length := by
          rw [← ih (some item.recommended_start), hr]; rfl
        dsimp only; rw [hr]; simp [hi]; exact fun j hj => this j hj

lemma scheduleVaccine_isSome (birth : PyDate) (v : Vaccine) :
    (scheduleVaccine birth v).isSome = true ↔ v.count ≤ v.periods.length := by
  unfold scheduleVaccine
  rw [vaccineLoop_isSome]
  simp only [List.mem_range]
  constructor
  · intro h
    by_contra hc
    push_neg at hc
    exact absurd (h v.periods.length (by omega)) (by omega)
  · intro h i hi; omega

lemma scheduleAll_isSome (birth : PyDate) :
    ∀ vaccines : List Vaccine,
      (scheduleAll birth vaccines).isSome = true ↔
        ∀ v ∈ vaccines, v.count ≤ v.periods.length := by
  intro vaccines
  induction vaccines with
  | nil => simp [scheduleAll]
  | cons v vs ih =>
    unfold scheduleAll
    cases hv : scheduleVaccine birth v with
    | none =>
      have : ¬ v.count ≤ v.periods.length := by
        rw [← scheduleVaccine_isSome birth v, hv]; simp
      simp [this]
    | some s =>
      have hv2 : v.count ≤ v.periods.length := by
        rw [← scheduleVaccine_isSome birth v, hv]; rfl
      cases hr : scheduleAll birth vs with
      | none =>
        have : ¬ ∀ w ∈ vs, w.count ≤ w.periods.length := by
          rw [← ih, hr]; simp
        dsimp only; simp [hv2, this]
      | some rest =>
        have : ∀ w ∈ vs, w.count ≤ w.periods.length := by
          rw [← ih, hr]; rfl
        dsimp only; simp [hv2]; exact fun w hw => this w hw

/-- Claim C8, amended: `calculate_schedule` succeeds exactly when every
vaccine's `periods` list is at least `count` long; a `periods` list
longer than `count` is not an error (its surplus entries are ignored),
and the function is deterministic (it is a pure function of its
arguments). -/
theorem schedule_isSome_iff (vaccines : List Vaccine) (birth : PyDate) :
    (calculate_schedule vaccines birth).isSome = true ↔
      ∀ v ∈ vaccines, v.count ≤ v.periods.length := by
  unfold calculate_schedule
  have h := scheduleAll_isSome birth vaccines
  cases hs : scheduleAll birth vaccines <;> rw [hs] at h <;> simpa using h

/-- Claim C8, counterexample: a vaccine whose `periods` length (2) does
not match its `count` (1) is accepted by `calculate_schedule`, refuting
the claimed failure on every length mismatch. -/
theorem periods_longer_succeeds :
    (calculate_schedule [{ name := "X", count := 1, periods := [(2, 0), (3, 0)] }]
        ⟨2023, 1, 15⟩).isSome = true ∧
    ({ name := "X", count := 1, periods := [(2, 0), (3, 0)] } : Vaccine).periods.length ≠
      ({ name := "X", count := 1, periods := [(2, 0), (3, 0)] } : Vaccine).count := by
  exact ⟨rfl, by decide⟩

lemma snd_of_some_eq {α β : Type} {a : α} {b : β} {p : α × β}
    (h : some (a, b) = some p) : p.2 = b := by
  cases Option.some.inj h; rfl

lemma doseStepF_fst (birth : PyDate) (v : Vaccine) (last : Option PyDate) (i : Nat) :
    (doseStepF birth v last i).map Prod.fst = doseStep birth v last i := by
  unfold doseStepF doseStep
  cases v.periods.get? i with
  | none => rfl
  | some p =>
    obtain ⟨sm, im⟩ := p
    dsimp only
    split_ifs with h
    · cases last with
      | some d => rfl
      | none => cases v.periods.get? (i - 1) <;> rfl
    · rfl

lemma doseStepF_flag_some (birth : PyDate) (v : Vaccine) (d : PyDate) (i : Nat)
    {item : ScheduleItem} {f : Bool} (h : doseStepF birth v (some d) i = some (item, f)) :
    f = false := by
  unfold doseStepF at h
  split at h
  · exact Option.noConfusion h
  · dsimp only at h
    split at h
    · exact snd_of_some_eq h
    · exact snd_of_some_eq h

lemma doseStepF_flag_zero (birth : PyDate) (v : Vaccine) (last : Option PyDate)
    {item : ScheduleItem} {f : Bool} (h : doseStepF birth v last 0 = some (item, f)) :
    f = false := by
  unfold doseStepF at h
  split at h
  · exact Option.noConfusion h
  · rw [if_neg (by simp)] at h
    exact snd_of_some_eq h

lemma vaccineLoopF_fst (birth : PyDate) (v : Vaccine) :
    ∀ (idxs : List Nat) (last : Option PyDate),
      (vaccineLoopF birth v last idxs).map Prod.fst = vaccineLoop birth v last idxs := by
  intro idxs
  induction idxs with
  | nil => intro last; rfl
  | cons i rest ih =>
    intro last
    unfold vaccineLoopF vaccineLoop
    have hfst := doseStepF_fst birth v last i
    cases hdF : doseStepF birth v last i with
    | none =>
      rw [hdF] at hfst
      rw [← hfst]
      rfl
    | some pr =>
      obtain ⟨item, f1⟩ := pr
      rw [hdF] at hfst
      rw [← hfst]
      simp only [Option.map_some']
      have ih2 := ih (some item.recommended_start)
      cases hrF : vaccineLoopF birth v (some item.recommended_start) rest with
      | none =>
        rw [hrF] at ih2
        rw [← ih2]
        rfl
      | some pr2 =>
        obtain ⟨items, f2⟩ := pr2
        rw [hrF] at ih2
        rw [← ih2]
        rfl

lemma vaccineLoopF_flag (birth : PyDate) (v : Vaccine) :
    ∀ (idxs : List Nat) (d : PyDate) {items : List ScheduleItem} {f : Bool},
      vaccineLoopF birth v (some d) idxs = some (items, f) → f = false := by
  intro idxs
  induction idxs with
  | nil => intro d items f h; simp [vaccineLoopF] at h; exact h.2
  | cons i rest ih =>
    intro d items f h
    unfold vaccineLoopF at h
    cases hdF : doseStepF birth v (some d) i with
    | none => rw [hdF] at h; exact Option.noConfusion h
    | some pr =>
      obtain ⟨item, f1⟩ := pr
      rw [hdF] at h
      dsimp only at h
      cases hrF : vaccineLoopF birth v (some item.recommended_start) rest with
      | none => rw [hrF] at h; exact Option.noConfusion h
      | some pr2 =>
        obtain ⟨items2, f2⟩ := pr2
        rw [hrF] at h
        dsimp only at h
        have hf : f = (f1 || f2) := (snd_of_some_eq h :)
        have hf1 : f1 = false := doseStepF_flag_some birth v d i hdF
        have hf2 : f2 = false := ih item.recommended_start hrF
        rw [hf, hf1, hf2]
        rfl

lemma scheduleVaccineF_flag (birth : PyDate) (v : Vaccine)
    {items : List ScheduleItem} {f : Bool}
    (h : scheduleVaccineF birth v = some (items, f)) : f = false := by
  unfold scheduleVaccineF at h
  cases hc : v.count with
  | zero => rw [hc] at h; simp [List.range, vaccineLoopF] at h; exact h.2
  | succ n =>
    rw [hc, List.range_succ_eq_map] at h
    unfold vaccineLoopF at h
    cases hdF : doseStepF birth v none 0 with
    | none => rw [hdF] at h; exact Option.noConfusion h
    | some pr =>
      obtain ⟨item, f1⟩ := pr
      rw [hdF] at h
      dsimp only at h
      cases hrF : vaccineLoopF birth v (some item.recommended_start)
          ((List.range n).map Nat.succ) with
      | none => rw [hrF] at h; exact Option.noConfusion h
      | some pr2 =>
        obtain ⟨items2, f2⟩ := pr2
        rw [hrF] at h
        dsimp only at h
        have hf : f = (f1 || f2) := (snd_of_some_eq h :)
        have hf1 : f1 = false := doseStepF_flag_zero birth v none hdF
        have hf2 : f2 = false := vaccineLoopF_flag birth v _ item.recommended_start hrF
        rw [hf, hf1, hf2]
        rfl

lemma scheduleAllF_fst (birth : PyDate) :
    ∀ vaccines : List Vaccine,
      (scheduleAllF birth vaccines).map Prod.fst = scheduleAll birth vaccines := by
  intro vaccines
  induction vaccines with
  | nil => rfl
  | cons v vs ih =>
    unfold scheduleAllF scheduleAll
    have hfst : (scheduleVaccineF birth v).map Prod.fst = scheduleVaccine birth v := by
      unfold scheduleVaccineF scheduleVaccine
      exact vaccineLoopF_fst birth v (List.range v.count) none
    cases hvF : scheduleVaccineF birth v with
    | none =>
      rw [hvF] at hfst
      rw [← hfst]
      rfl
    | some pr =>
      obtain ⟨s, f1⟩ := pr
      rw [hvF] at hfst
      rw [← hfst]
      dsimp only
      cases hrF : scheduleAllF birth vs with
      | none =>
        rw [hrF] at ih
        rw [← ih]
        rfl
      | some pr2 =>
        obtain ⟨rest, f2⟩ := pr2
        rw [hrF] at ih
        rw [← ih]
        rfl

lemma scheduleAllF_flag (birth : PyDate) :
    ∀ (vaccines : List Vaccine) {items : List ScheduleItem} {f : Bool},
      scheduleAllF birth vaccines = some (items, f) → f = false := by
  intro vaccines
  induction vaccines with
  | nil => intro items f h; simp [scheduleAllF] at h; exact h.2
  | cons v vs ih =>
    intro items f h
    unfold scheduleAllF at h
    cases hvF : scheduleVaccineF birth v with
    | none => rw [hvF] at h; exact Option.noConfusion h
    | some pr =>
      obtain ⟨s, f1⟩ := pr
      rw [hvF] at h
      dsimp only at h
      cases hrF : scheduleAllF birth vs with
      | none => rw [hrF] at h; exact Option.noConfusion h
      | some pr2 =>
        obtain ⟨rest, f2⟩ := pr2
        rw [hrF] at h
        dsimp only at h
        have hf : f = (f1 || f2) := (snd_of_some_eq h :)
        have hf1 : f1 = false := scheduleVaccineF_flag birth v hvF
        have hf2 : f2 = false := ih hrF
        rw [hf, hf1, hf2]
        rfl

/-- Claim C9: the instrumented schedule computation (identical to
`calculate_schedule` on its first component) never takes the interval
branch's fallback that re-derives the base date from
`periods[i-1][0]`: whenever dose `i > 0` with a positive interval is
reached, `last_shot_date` was set by the previous iteration, so the
fallback flag is always false. -/
theorem fallback_unreachable (vaccines : List Vaccine) (birth : PyDate) :
    (calculate_scheduleF vaccines birth).map Prod.fst = calculate_schedule vaccines birth ∧
    ∀ r : List ScheduleItem × Bool,
      calculate_scheduleF vaccines birth = some r → r.2 = false := by
  constructor
  · unfold calculate_scheduleF calculate_schedule
    have h := scheduleAllF_fst birth vaccines
    cases hs : scheduleAllF birth vaccines with
    | none => rw [hs] at h; rw [← h]; rfl
    | some pr => rw [hs] at h; rw [← h]; rfl
  · intro r hr
    unfold calculate_scheduleF at hr
    cases hs : scheduleAllF birth vaccines with
    | none => rw [hs] at hr; exact Option.noConfusion hr
    | some pr =>
      obtain ⟨items, f⟩ := pr
      rw [hs] at hr
      simp only [Option.map_some'] at hr
      have h2 : r.2 = f := (snd_of_some_eq hr :)
      rw [h2]
      exact scheduleAllF_flag birth vaccines hs

lemma vaccineLoop_chain (birth : PyDate) (v : Vaccine) :
    ∀ (idxs : List Nat) (last : Option PyDate) (items : List ScheduleItem),
      vaccineLoop birth v last idxs = some items →
      items.length = idxs.length ∧
      ∀ k i, idxs.get? k = some i →
        ∃ item, items.get? k = some item ∧
          doseStep birth v
            (if k = 0 then last else (items.get? (k - 1)).map ScheduleItem.recommended_start)
            i = some item := by
  intro idxs
  induction idxs with
  | nil =>
    intro last items h
    simp [vaccineLoop] at h
    subst h
    simp
  | cons j rest ih =>
    intro last items h
    unfold vaccineLoop at h
    cases hd : doseStep birth v last j with
    | none => rw [hd] at h; exact Option.noConfusion h
    | some item0 =>
      rw [hd] at h
      dsimp only at h
      cases hr : vaccineLoop birth v (some item0.recommended_start) rest with
      | none => rw [hr] at h; exact Option.noConfusion h
      | some items0 =>
        rw [hr] at h
        dsimp only at h
        have hitems : items = item0 :: items0 := (Option.some.inj h).symm
        subst hitems
        obtain ⟨hlen, hstep⟩ := ih (some item0.recommended_start) items0 hr
        constructor
        · simp [hlen]
        · intro k i hk
          cases k with
          | zero =>
            refine ⟨item0, rfl, ?_⟩
            simp only [List.get?] at hk
            rw [if_pos rfl]
            rw [Option.some.inj hk] at hd
            exact hd
          | succ k2 =>
            simp only [List.get?] at hk
            obtain ⟨item, hitem, hds⟩ := hstep k2 i hk
            refine ⟨item, by simpa using hitem, ?_⟩
            rw [if_neg (Nat.succ_ne_zero k2)]
            cases k2 with
            | zero =>
              simpa using hds
            | succ k3 =>
              rw [if_neg (Nat.succ_ne_zero k3)] at hds
              simpa using hds

lemma doseStep_interval {v : Vaccine} {i sm im : Nat} (birth d : PyDate)
    (hp : v.periods.get? i = some (sm, im)) (hi : 0 < i) (him : 0 < im) :
    doseStep birth v (some d) i = some (mkItem v i (addMonths d im)) := by
  unfold doseStep
  rw [hp]
  dsimp only
  rw [if_pos ⟨hi, him⟩]
  rfl

/-- Claim C1: in the per-vaccine pass of the schedule computation, every
dose `k > 0` whose rule has a positive `interval_months` gets
`recommended_start = previous dose's recommended_start + interval
months`, whatever its own `start_months` offset says; and for birth
date 2023-01-15 with periods [(36,0),(37,1),(49,12),(108,0)] the four
recommended starts are 2026-01-15, 2026-02-15, 2027-02-15, 2032-01-15. -/
theorem interval_chaining :
    (∀ (birth : PyDate) (v : Vaccine) (s : List ScheduleItem) (k sm im : Nat),
      scheduleVaccine birth v = some s →
      v.periods.get? k = some (sm, im) → 0 < k → 0 < im →
      ∀ prev item, s.get? (k - 1) = some prev → s.get? k = some item →
        item.recommended_start = addMonths prev.recommended_start im) ∧
    (scheduleVaccine ⟨2023, 1, 15⟩
        { name := "日本脳炎", count := 4, periods := [(36, 0), (37, 1), (49, 12), (108, 0)] }).map
        (List.map ScheduleItem.recommended_start) =
      some [⟨2026, 1, 15⟩, ⟨2026, 2, 15⟩, ⟨2027, 2, 15⟩, ⟨2032, 1, 15⟩] := by
  constructor
  · intro birth v s k sm im hs hp hk him prev item hprev hitem
    unfold scheduleVaccine at hs
    obtain ⟨hlen, hstep⟩ := vaccineLoop_chain birth v (List.range v.count) none s hs
    have hks : k < s.length := by
      by_contra hc
      rw [List.get?_eq_none.mpr (by omega)] at hitem
      exact Option.noConfusion hitem
    have hkc : k < v.count := by
      rw [hlen, List.length_range] at hks
      exact hks
    obtain ⟨item2, hitem2, hds⟩ := hstep k k
      (by rw [List.get?_eq_getElem?]; exact List.getElem?_range hkc)
    rw [hitem2] at hitem
    have hii : item2 = item := Option.some.inj hitem
    subst hii
    rw [if_neg (by omega), hprev, Option.map_some'] at hds
    rw [doseStep_interval birth prev.recommended_start hp hk him] at hds
    have := Option.some.inj hds
    rw [← this]
    rfl
  · rfl

lemma doseStep_item {birth : PyDate} {v : Vaccine} {last : Option PyDate} {i : Nat}
    {item : ScheduleItem} (h : doseStep birth v last i = some item) :
    item.recommended_end = predDay (addMonths item.recommended_start 1) ∧
    item.status = Status.pending ∧ item.shot_date = none ∧
    (validDate birth → (∀ d, last = some d → validDate d) →
      validDate item.recommended_start) := by
  cases last with
  | some d =>
    unfold doseStep at h
    split at h
    · exact Option.noConfusion h
    · rename_i p sm im heq
      dsimp only at h
      split at h
      · have : item = mkItem v i (addMonths d im) := (Option.some.inj h).symm
        subst this
        refine ⟨rfl, rfl, rfl, fun hb hl => ?_⟩
        exact addMonths_valid (hl d rfl) im
      · have : item = mkItem v i (addMonths birth sm) := (Option.some.inj h).symm
        subst this
        refine ⟨rfl, rfl, rfl, fun hb hl => ?_⟩
        exact addMonths_valid hb sm
  | none =>
    unfold doseStep at h
    split at h
    · exact Option.noConfusion h
    · rename_i p sm im heq
      dsimp only at h
      split at h
      · cases hq : v.periods.get? (i - 1) with
        | none => rw [hq] at h; exact Option.noConfusion h
        | some q =>
          rw [hq] at h
          simp only [Option.map_some'] at h
          have : item = mkItem v i (addMonths (addMonths birth q.1) im) :=
            (Option.some.inj h).symm
          subst this
          refine ⟨rfl, rfl, rfl, fun hb hl => ?_⟩
          exact addMonths_valid (addMonths_valid hb q.1) im
      · have : item = mkItem v i (addMonths birth sm) := (Option.some.inj h).symm
        subst this
        refine ⟨rfl, rfl, rfl, fun hb hl => ?_⟩
        exact addMonths_valid hb sm

lemma vaccineLoop_items (birth : PyDate) (v : Vaccine) :
    ∀ (idxs : List Nat) (last : Option PyDate) (items : List ScheduleItem),
      vaccineLoop birth v last idxs = some items →
      validDate birth → (∀ d, last = some d → validDate d) →
      ∀ item ∈ items,
        item.recommended_end = predDay (addMonths item.recommended_start 1) ∧
        item.status = Status.pending ∧ item.shot_date = none ∧
        validDate item.recommended_start := by
  intro idxs
  induction idxs with
  | nil =>
    intro last items h hb hl
    simp [vaccineLoop] at h
    subst h
    simp
  | cons j rest ih =>
    intro last items h hb hl
    unfold vaccineLoop at h
    cases hd : doseStep birth v last j with
    | none => rw [hd] at h; exact Option.noConfusion h
    | some item0 =>
      rw [hd] at h
      dsimp only at h
      cases hr : vaccineLoop birth v (some item0.recommended_start) rest with
      | none => rw [hr] at h; exact Option.noConfusion h
      | some items0 =>
        rw [hr] at h
        dsimp only at h
        have hitems : items = item0 :: items0 := (Option.some.inj h).symm
        subst hitems
        obtain ⟨he0, hs0, hsh0, hv0⟩ := doseStep_item hd
        have hv0s : validDate item0.recommended_start := hv0 hb hl
        intro item hmem
        rcases List.mem_cons.mp hmem with hitem | hitem
        · subst hitem
          exact ⟨he0, hs0, hsh0, hv0s⟩
        · exact ih (some item0.recommended_start) items0 hr hb
            (fun d hdd => by rw [← Option.some.inj hdd]; exact hv0s) item hitem

lemma scheduleAll_items (birth : PyDate) :
    ∀ (vaccines : List Vaccine) (items : List ScheduleItem),
      scheduleAll birth vaccines = some items →
      validDate birth →
      ∀ item ∈ items,
        item.recommended_end = predDay (addMonths item.recommended_start 1) ∧
        item.status = Status.pending ∧ item.shot_date = none ∧
        validDate item.recommended_start := by
  intro vaccines
  induction vaccines with
  | nil =>
    intro items h hb
    simp [scheduleAll] at h
    subst h
    simp
  | cons v vs ih =>
    intro items h hb
    unfold scheduleAll at h
    cases hv : scheduleVaccine birth v with
    | none => rw [hv] at h; exact Option.noConfusion h
    | some s =>
      rw [hv] at h
      dsimp only at h
      cases hr : scheduleAll birth vs with
      | none => rw [hr] at h; exact Option.noConfusion h
      | some rest =>
        rw [hr] at h
        dsimp only at h
        have hitems : items = s ++ rest := (Option.some.inj h).symm
        subst hitems
        intro item hmem
        rcases List.mem_append.mp hmem with hitem | hitem
        · exact vaccineLoop_items birth v (List.range v.count) none s hv hb
            (fun d hdd => Option.noConfusion hdd) item hitem
        · exact ih rest hr hb item hitem

/-- Claim C3: every obligation produced by `calculate_schedule` (from a
valid birth date) has `recommended_end = recommended_start + 1 calendar
month - 1 day` under clamping month addition, and
`recommended_end > recommended_start`; for birth date 2023-01-15 and a
single dose with offset 5 the window is 2023-06-15 .. 2023-07-14. -/
theorem window_one_month :
    (∀ (vaccines : List Vaccine) (birth : PyDate) (s : List ScheduleItem),
      calculate_schedule vaccines birth = some s → validDate birth →
      ∀ item ∈ s,
        item.recommended_end = predDay (addMonths item.recommended_start 1) ∧
        dateLt item.recommended_start item.recommended_end) ∧
    (calculate_schedule [{ name := "X", count := 1, periods := [(5, 0)] }]
        ⟨2023, 1, 15⟩).map
        (List.map fun i => (i.recommended_start, i.recommended_end)) =
      some [(⟨2023, 6, 15⟩, ⟨2023, 7, 14⟩)] := by
  constructor
  · intro vaccines birth s hs hb item hmem
    unfold calculate_schedule at hs
    cases hraw : scheduleAll birth vaccines with
    | none => rw [hraw] at hs; exact Option.noConfusion hs
    | some raw =>
      rw [hraw] at hs
      simp only [Option.map_some'] at hs
      have hsraw : s = List.insertionSort leStart raw := (Option.some.inj hs).symm
      have hmem2 : item ∈ raw := by
        rw [hsraw] at hmem
        exact (List.mem_insertionSort leStart).mp hmem
      obtain ⟨he, _, _, hv⟩ := scheduleAll_items birth vaccines raw hraw hb item hmem2
      refine ⟨he, ?_⟩
      rw [he]
      exact start_lt_end hv
  · rfl

lemma filter_orderedInsert (x : ScheduleItem) (d : PyDate) :
    ∀ l : List ScheduleItem,
      (List.orderedInsert leStart x l).filter (fun i => decide (i.recommended_start = d)) =
        if x.recommended_start = d then
          x :: l.filter (fun i => decide (i.recommended_start = d))
        else l.filter (fun i => decide (i.recommended_start = d)) := by
  intro l
  induction l with
  | nil =>
    by_cases hxd : x.recommended_start = d <;>
      simp [List.orderedInsert, List.filter, hxd]
  | cons y ys ih =>
    by_cases hle : leStart x y
    · rw [List.orderedInsert, if_pos hle]
      by_cases hxd : x.recommended_start = d <;>
        by_cases hyd : y.recommended_start = d <;>
          simp [List.filter, hxd, hyd]
    · rw [List.orderedInsert, if_neg hle]
      have hlt : dateLt y.recommended_start x.recommended_start := not_le_lt hle
      by_cases hyd : y.recommended_start = d
      · have hxd : x.recommended_start ≠ d := by
          rw [← hyd]
          exact fun he => dateLt_ne hlt he.symm
        simp [List.filter, hyd, hxd, ih]
      · by_cases hxd : x.recommended_start = d <;>
          simp [List.filter, hyd, hxd, ih]

lemma filter_insertionSort (d : PyDate) :
    ∀ l : List ScheduleItem,
      (List.insertionSort leStart l).filter (fun i => decide (i.recommended_start = d)) =
        l.filter (fun i => decide (i.recommended_start = d)) := by
  intro l
  induction l with
  | nil => rfl
  | cons x xs ih =>
    rw [List.insertionSort, filter_orderedInsert]
    by_cases hxd : x.recommended_start = d <;> simp [List.filter, hxd, ih]

/-- Claim C4: the schedule returned by `calculate_schedule` is a
permutation of the per-vaccine emission list, sorted non-decreasing by
`recommended_start`, and the sort is stable: for every date, the
obligations with that recommended start appear in emission order. -/
theorem schedule_sorted_stable (vaccines : List Vaccine) (birth : PyDate)
    (raw s : List ScheduleItem)
    (hraw : scheduleAll birth vaccines = some raw)
    (hs : calculate_schedule vaccines birth = some s) :
    List.Sorted leStart s ∧ s.Perm raw ∧
    ∀ d : PyDate,
      s.filter (fun i => decide (i.recommended_start = d)) =
        raw.filter (fun i => decide (i.recommended_start = d)) := by
  unfold calculate_schedule at hs
  rw [hraw, Option.map_some'] at hs
  have hsraw : s = List.insertionSort leStart raw := (Option.some.inj hs).symm
  subst hsraw
  refine ⟨List.sorted_insertionSort leStart raw, List.perm_insertionSort leStart raw, ?_⟩
  intro d
  exact filter_insertionSort d raw

lemma daysBeforeMonth_succ (y m : Nat) (hm : 1 ≤ m) :
    daysBeforeMonth y (m + 1) = daysBeforeMonth y m + daysInMonth y m := by
  obtain ⟨mm, rfl⟩ : ∃ mm, m = mm + 1 := ⟨m - 1, by omega⟩
  unfold daysBeforeMonth
  simp only [Nat.add_sub_cancel]
  rw [List.range_succ, List.map_append, List.sum_append]
  simp

lemma daysBeforeMonth_step (y k : Nat) : daysBeforeMonth y k ≤ daysBeforeMonth y (k + 1) := by
  cases k with
  | zero => simp [daysBeforeMonth]
  | succ kk => rw [daysBeforeMonth_succ y (kk + 1) (by omega)]; omega

lemma daysBeforeMonth_mono (y : Nat) {m m2 : Nat} (h : m ≤ m2) :
    daysBeforeMonth y m ≤ daysBeforeMonth y m2 := by
  induction m2, h using Nat.le_induction with
  | base => exact le_refl _
  | succ n hn ih => exact le_trans ih (daysBeforeMonth_step y n)

lemma daysBeforeMonth_13 (y : Nat) :
    daysBeforeMonth y 13 = if isLeap y then 366 else 365 := by
  have h12 : List.range (13 - 1) = [0, 1, 2, 3, 4, 5, 6, 7, 8, 9, 10, 11] := by rfl
  unfold daysBeforeMonth
  rw [h12]
  by_cases hL : isLeap y <;> simp [daysInMonth, hL]

lemma isLeap_iff (y : Nat) :
    isLeap y = true ↔ (y % 4 = 0 ∧ (y % 100 ≠ 0 ∨ y % 400 = 0)) := by
  unfold isLeap
  simp [Bool.and_eq_true, Bool.or_eq_true, beq_iff_eq, bne_iff_ne]

set_option maxHeartbeats 2000000 in
lemma daysBeforeYear_succ (y : Nat) (hy : 1 ≤ y) :
    daysBeforeYear (y + 1) = daysBeforeYear y + (if isLeap y then 366 else 365) := by
  by_cases hL : isLeap y
  · rw [if_pos hL]
    have h4 := (isLeap_iff y).mp hL
    clear hL
    unfold daysBeforeYear
    omega
  · rw [if_neg hL]
    have h4 : ¬ (y % 4 = 0 ∧ (y % 100 ≠ 0 ∨ y % 400 = 0)) := fun hc =>
      hL ((isLeap_iff y).mpr hc)
    clear hL
    unfold daysBeforeYear
    omega

lemma daysBeforeYear_step (y : Nat) : daysBeforeYear y ≤ daysBeforeYear (y + 1) := by
  cases y with
  | zero => simp [daysBeforeYear]
  | succ yy =>
    rw [daysBeforeYear_succ (yy + 1) (by omega)]
    split_ifs <;> omega

lemma daysBeforeYear_mono {y y2 : Nat} (h : y ≤ y2) :
    daysBeforeYear y ≤ daysBeforeYear y2 := by
  induction y2, h using Nat.le_induction with
  | base => exact le_refl _
  | succ n hn ih => exact le_trans ih (daysBeforeYear_step n)

lemma toOrdinal_lt {a b : PyDate} (ha : validDate a) (hb : validDate b)
    (h : dateLt a b) : toOrdinal a < toOrdinal b := by
  obtain ⟨hya, hma1, hma2, hda1, hda2⟩ := ha
  obtain ⟨hyb, hmb1, hmb2, hdb1, hdb2⟩ := hb
  unfold dateLt at h
  unfold toOrdinal
  rcases h with hy | ⟨hy, hm | ⟨hm, hd⟩⟩
  · have h1 : daysBeforeMonth a.year a.month + a.day ≤ daysBeforeMonth a.year (a.month + 1) := by
      rw [daysBeforeMonth_succ a.year a.month hma1]; omega
    have h2 : daysBeforeMonth a.year (a.month + 1) ≤ daysBeforeMonth a.year 13 :=
      daysBeforeMonth_mono a.year (by omega)
    have h3 := daysBeforeMonth_13 a.year
    have h4 := daysBeforeYear_succ a.year hya
    have h5 : daysBeforeYear (a.year + 1) ≤ daysBeforeYear b.year := daysBeforeYear_mono (by omega)
    omega
  · rw [← hy]
    have h1 : daysBeforeMonth a.year a.month + a.day ≤ daysBeforeMonth a.year (a.month + 1) := by
      rw [daysBeforeMonth_succ a.year a.month hma1]; omega
    have h2 : daysBeforeMonth a.year (a.month + 1) ≤ daysBeforeMonth a.year b.month :=
      daysBeforeMonth_mono a.year (by omega)
    omega
  · rw [← hy, ← hm]
    omega

lemma status_admin_of_ne {s : Status} (h : ¬ s = Status.pending) :
    s = Status.administered := by
  cases s <;> simp_all

lemma find_pending_min :
    ∀ l : List ScheduleItem, List.Sorted leStart l →
      ∀ item, next_pending l = some item →
        item ∈ l ∧ item.status = Status.pending ∧
        ∀ j ∈ l, j.status = Status.pending →
          dateLe item.recommended_start j.recommended_start := by
  intro l
  induction l with
  | nil => intro hs item h; exact Option.noConfusion h
  | cons x xs ih =>
    intro hs item h
    obtain ⟨hx_le, hxs⟩ := List.sorted_cons.mp hs
    by_cases hx : x.status = Status.pending
    · rw [next_pending, List.find?_cons_of_pos _ (by simp [hx])] at h
      have hix : x = item := Option.some.inj h
      subst hix
      refine ⟨List.mem_cons_self x xs, hx, ?_⟩
      intro j hj hjp
      rcases List.mem_cons.mp hj with hj | hj
      · subst hj; exact dateLe_refl _
      · exact hx_le j hj
    · rw [next_pending, List.find?_cons_of_neg _ (by simp [hx])] at h
      obtain ⟨hmem, hpend, hmin⟩ := ih hxs item h
      refine ⟨List.mem_cons_of_mem x hmem, hpend, ?_⟩
      intro j hj hjp
      rcases List.mem_cons.mp hj with hj | hj
      · subst hj; exact absurd hjp hx
      · exact hmin j hj hjp

/-- Claim C7: on a schedule sorted by `recommended_start` (the invariant
`calculate_schedule` establishes), `next_pending` returns none exactly
when every obligation is administered, and otherwise returns a pending
obligation whose `recommended_start` is minimal among pending ones; the
reported days-until value is `recommended_start - asOf` in days and is
negative when the dose's start is already past. -/
theorem next_pending_spec (schedule : List ScheduleItem) (asOf : PyDate)
    (hs : List.Sorted leStart schedule) :
    (next_pending schedule = none ↔
      ∀ i ∈ schedule, i.status = Status.administered) ∧
    (∀ item, next_pending schedule = some item →
      item ∈ schedule ∧ item.status = Status.pending ∧
      (∀ j ∈ schedule, j.status = Status.pending →
        dateLe item.recommended_start j.recommended_start) ∧
      days_left item asOf = (toOrdinal item.recommended_start : Int) - (toOrdinal asOf : Int) ∧
      (validDate item.recommended_start → validDate asOf →
        dateLt item.recommended_start asOf → days_left item asOf < 0)) := by
  constructor
  · rw [next_pending, List.find?_eq_none]
    constructor
    · intro h i hi
      exact status_admin_of_ne (by simpa using h i hi)
    · intro h i hi
      simp [h i hi]
  · intro item h
    obtain ⟨hmem, hpend, hmin⟩ := find_pending_min schedule hs item h
    refine ⟨hmem, hpend, hmin, rfl, ?_⟩
    intro hv1 hv2 hlt
    have := toOrdinal_lt hv1 hv2 hlt
    unfold days_left dateSub
    omega

/-! ## Witnesses -/

/-- Witness for C1: the two-dose vaccine `V` with periods [(1,0),(2,3)]
and birth date 2023-01-15 has dose 2 starting 3 months after dose 1. -/
theorem interval_chaining_witness :
    scheduleVaccine ⟨2023, 1, 15⟩ { name := "V", count := 2, periods := [(1, 0), (2, 3)] } =
      some [wChain0, wChain1] ∧
    wChain1.recommended_start = addMonths wChain0.recommended_start 3 := by
  refine ⟨rfl, ?_⟩
  exact interval_chaining.1 ⟨2023, 1, 15⟩
    { name := "V", count := 2, periods := [(1, 0), (2, 3)] }
    [wChain0, wChain1] 1 2 3 rfl rfl (by decide) (by decide)
    wChain0 wChain1 rfl rfl

/-- Witness for C2: status evaluation of a concrete pending obligation
with window 2023-06-15 .. 2023-07-14 at the boundary dates. -/
theorem evaluate_cases_witness :
    evaluate wEval ⟨2023, 6, 15⟩ = DisplayStatus.due ∧
    evaluate wEval ⟨2023, 7, 14⟩ = DisplayStatus.due ∧
    evaluate wEval ⟨2023, 7, 15⟩ = DisplayStatus.overdue ∧
    evaluate wEval ⟨2023, 5, 1⟩ = DisplayStatus.upcoming ∧
    evaluate { wEval with status := Status.administered } ⟨2023, 8, 1⟩ =
      DisplayStatus.administered := by
  refine ⟨?_, ?_, ?_, ?_, ?_⟩
  · exact (evaluate_cases wEval ⟨2023, 6, 15⟩).2.1 rfl (by decide) (by decide)
  · exact (evaluate_cases wEval ⟨2023, 7, 14⟩).2.1 rfl (by decide) (by decide)
  · exact (evaluate_cases wEval ⟨2023, 7, 15⟩).2.2.1 rfl (by decide)
  · exact (evaluate_cases wEval ⟨2023, 5, 1⟩).2.2.2.1 rfl (by decide) (by decide)
  · exact (evaluate_cases { wEval with status := Status.administered } ⟨2023, 8, 1⟩).1 rfl

/-- Witness for C3: the one-dose offset-5 vaccine for birth date
2023-01-15 yields the window 2023-06-15 .. 2023-07-14, one clamped
month minus a day, strictly later than its start. -/
theorem window_one_month_witness :
    calculate_schedule [{ name := "X", count := 1, periods := [(5, 0)] }] ⟨2023, 1, 15⟩ =
      some [wWindow] ∧
    (wWindow.recommended_end = predDay (addMonths wWindow.recommended_start 1) ∧
      dateLt wWindow.recommended_start wWindow.recommended_end) := by
  refine ⟨rfl, ?_⟩
  exact window_one_month.1 [{ name := "X", count := 1, periods := [(5, 0)] }]
    ⟨2023, 1, 15⟩ [wWindow] rfl (by decide) wWindow (List.mem_singleton.mpr rfl)

/-- Witness for C4: two single-dose vaccines `P` and `Q` with the same
offset produce two obligations with equal starts; the sorted schedule
is sorted, a permutation of the raw emission, and keeps their order. -/
theorem schedule_sorted_stable_witness :
    scheduleAll ⟨2023, 1, 15⟩
        [{ name := "P", count := 1, periods := [(2, 0)] },
         { name := "Q", count := 1, periods := [(2, 0)] }] = some [wSortP, wSortQ] ∧
    calculate_schedule
        [{ name := "P", count := 1, periods := [(2, 0)] },
         { name := "Q", count := 1, periods := [(2, 0)] }] ⟨2023, 1, 15⟩ =
      some [wSortP, wSortQ] ∧
    (List.Sorted leStart [wSortP, wSortQ] ∧ List.Perm [wSortP, wSortQ] [wSortP, wSortQ] ∧
      ∀ d : PyDate,
        List.filter (fun i => decide (i.recommended_start = d)) [wSortP, wSortQ] =
          List.filter (fun i => decide (i.recommended_start = d)) [wSortP, wSortQ]) := by
  refine ⟨rfl, rfl, ?_⟩
  exact schedule_sorted_stable
    [{ name := "P", count := 1, periods := [(2, 0)] },
     { name := "Q", count := 1, periods := [(2, 0)] }]
    ⟨2023, 1, 15⟩ [wSortP, wSortQ] [wSortP, wSortQ] rfl rfl

/-- Witness for C5: the empty name is rejected and the name A is
registered with the schedule `calculate_schedule` builds. -/
theorem register_spec_witness :
    register [] "" ⟨2023, 1, 15⟩ = none ∧
    register [] "A" ⟨2023, 1, 15⟩ =
      some ([] ++ [{ name := "A", birth_date := ⟨2023, 1, 15⟩,
                     schedule := (calculate_schedule VACCINES ⟨2023, 1, 15⟩).getD [] }]) := by
  constructor
  · exact (register_spec [] "" ⟨2023, 1, 15⟩).1 rfl
  · exact (register_spec [] "A" ⟨2023, 1, 15⟩).2 (by decide)
      ((calculate_schedule VACCINES ⟨2023, 1, 15⟩).getD []) rfl

/-- Witness for C6: toggling the concrete pending obligation `wToggle`. -/
theorem toggle_frame_witness :
    (setAdministered wToggle (some ⟨2023, 6, 20⟩)).shot_date = some ⟨2023, 6, 20⟩ ∧
    (setAdministered wToggle none).shot_date = some wToggle.recommended_start ∧
    (setPending wToggle).shot_date = none ∧
    (setAdministered wToggle none).status = Status.administered ∧
    (setPending wToggle).status = Status.pending ∧
    (setAdministered wToggle none).recommended_start = wToggle.recommended_start ∧
    (setAdministered wToggle none).recommended_end = wToggle.recommended_end ∧
    (setPending wToggle).recommended_start = wToggle.recommended_start ∧
    (setPending wToggle).recommended_end = wToggle.recommended_end := by
  have h := toggle_frame wToggle ⟨2023, 6, 20⟩ none
  exact ⟨h.1, h.2.1 rfl, h.2.2.1, h.2.2.2.1, h.2.2.2.2.1, h.2.2.2.2.2.1,
    h.2.2.2.2.2.2.1, h.2.2.2.2.2.2.2.1, h.2.2.2.2.2.2.2.2⟩

/-- Witness for C7: in the sorted two-item schedule [`wAdm`, `wPend`]
the next pending dose is `wPend`, minimal among pending ones, with its
days-left value negative at an as-of date past its start. -/
theorem next_pending_spec_witness :
    (next_pending [wAdm, wPend] = none ↔
      ∀ i ∈ [wAdm, wPend], i.status = Status.administered) ∧
    (wPend ∈ [wAdm, wPend] ∧ wPend.status = Status.pending ∧
      (∀ j ∈ [wAdm, wPend], j.status = Status.pending →
        dateLe wPend.recommended_start j.recommended_start) ∧
      days_left wPend ⟨2023, 4, 1⟩ =
        (toOrdinal wPend.recommended_start : Int) - (toOrdinal (⟨2023, 4, 1⟩ : PyDate) : Int) ∧
      (validDate wPend.recommended_start → validDate ⟨2023, 4, 1⟩ →
        dateLt wPend.recommended_start ⟨2023, 4, 1⟩ →
        days_left wPend ⟨2023, 4, 1⟩ < 0)) := by
  constructor
  · exact (next_pending_spec [wAdm, wPend] ⟨2023, 4, 1⟩ (by decide)).1
  · exact (next_pending_spec [wAdm, wPend] ⟨2023, 4, 1⟩ (by decide)).2 wPend rfl

/-- Witness for C9: on the two-dose interval vaccine `V` the fallback
flag of the instrumented computation is false. -/
theorem fallback_unreachable_witness :
    (calculate_scheduleF [{ name := "V", count := 2, periods := [(1, 0), (2, 3)] }]
        ⟨2023, 1, 15⟩).map Prod.snd = some false := by
  cases hc : calculate_scheduleF [{ name := "V", count := 2, periods := [(1, 0), (2, 3)] }]
      ⟨2023, 1, 15⟩ with
  | none => exact absurd hc (by decide)
  | some r =>
    rw [Option.map_some']
    exact congrArg some
      ((fallback_unreachable [{ name := "V", count := 2, periods := [(1, 0), (2, 3)] }]
        ⟨2023, 1, 15⟩).2 r hc)

/-- Witness for C10: with children [B, A, A2] (two named A), lookup of A
returns the first A and mutation through A rewrites only the first A. -/
theorem find_first_match_witness :
    findChild [cB, cA1, cA2] "A" = some cA1 ∧
    updateChild "A" (fun ch => { ch with birth_date := ⟨2025, 1, 1⟩ }) [cB, cA1, cA2] =
      [cB, { cA1 with birth_date := ⟨2025, 1, 1⟩ }, cA2] :=
  find_first_match [cB] [cA2] cA1 "A"
    (fun ch => { ch with birth_date := ⟨2025, 1, 1⟩ }) rfl (by decide)

